import Mathlib

/-!
Verification of the census-dashboard data pipeline.

The development shallowly embeds the data wrangling core of the repository:

* `load_and_process_data` — the loader/normalizer of `main.py` (drop the
  nationwide row, rename columns, strip region codes, coerce numeric columns);
* `load_and_process_data_01` — the loader of `pages/01_인구증감.py`;
* `drop_national_02` — the nationwide-row filter of `pages/02_출생등록.py`;
* `sort_values_desc`, `top5`, `melt`, `mainPageView` — the top-N selection and
  reshape steps shared by the pages.

A data frame is modelled as a header list plus row-major cells.  A cell value
(`Val`) is either a string, a parsed number, or a missing value (`nan`), which
is what `pandas.read_csv(..., thousands=',')` produces.  Fallible pandas
operations (`KeyError` on a missing column label, `IndexError` from
`df.iloc[0]` on an empty frame, `TypeError` from operating on a non-string or
a duplicated label) are modelled with `Except PyError`.
-/

/-- Cell value of a loaded data frame: a string cell, a numeric cell (already
parsed by `read_csv` with `thousands=','`), or a missing value (`NaN`). -/
inductive Val where
  | str (s : String)
  | num (n : Int)
  | nan
deriving DecidableEq, Repr

/-- Errors surfaced by the modelled pandas operations.  They are all caught by
the page-level handler and rendered as a single error message, so the loader
never returns a partial result alongside one. -/
inductive PyError where
  | indexError
  | keyError (k : String)
  | typeError
deriving DecidableEq, Repr

/-- Data frame: column labels plus row-major cells.  `read_csv` always
produces rectangular frames (`r.length = headers.length` for every row). -/
structure Frame where
  headers : List String
  rows : List (List Val)
deriving DecidableEq, Repr

/-- Cell of frame `f` at row `i`, column `p` (both zero-based). -/
def Frame.cellAt (f : Frame) (i p : Nat) : Option Val :=
  (f.rows[i]?).bind (fun r => r[p]?)

/-- Substring test: `hasSubAux pat hay` decides whether `pat` occurs
contiguously in `hay`, like Python's `pat in hay`. -/
def hasSubAux (pat : List Char) : List Char → Bool
  | [] => pat.isEmpty
  | c :: rest => List.isPrefixOf pat (c :: rest) || hasSubAux pat rest

/-- Python's `pat in s` on strings. -/
def strContains (s pat : String) : Bool := hasSubAux pat.data s.data

/-- Last part of `col.split('_계_')`, i.e. the characters after the final
(left-to-right, non-overlapping) occurrence of `'_계_'`; the whole string when
the separator does not occur. -/
def afterGyeAux : List Char → List Char → List Char
  | '_' :: '계' :: '_' :: rest, _acc => afterGyeAux rest []
  | c :: rest, acc => afterGyeAux rest (c :: acc)
  | [], acc => acc.reverse

/-- Python's `col.split('_계_')[-1]`. -/
def afterGye (l : List Char) : List Char := afterGyeAux l []

/-- Python's `.replace('세','')`: remove every occurrence of the character
`'세'`. -/
def removeSe : List Char → List Char
  | '세' :: rest => removeSe rest
  | c :: rest => c :: removeSe rest
  | [] => []

/-- Python's `.replace(' 이상','')`: remove every (left-to-right,
non-overlapping) occurrence of the three-character pattern `' 이상'`. -/
def removeIsang : List Char → List Char
  | ' ' :: '이' :: '상' :: rest => removeIsang rest
  | c :: rest => c :: removeIsang rest
  | [] => []

/-- Python's `str.isdigit()` restricted to the ASCII digits appearing in these
files: true iff the string is nonempty and all characters are digits. -/
def pyIsDigit (s : String) : Bool := !s.isEmpty && s.data.all Char.isDigit

/-- Numeric value of a digit string, like Python's `int` on digits. -/
def digitsToNat (ds : List Char) : Nat := ds.foldl (fun acc c => acc * 10 + (c.toNat - 48)) 0

/-- Whitespace trim on both ends. -/
def trimChars (l : List Char) : List Char :=
  ((l.dropWhile Char.isWhitespace).reverse.dropWhile Char.isWhitespace).reverse

/-- Integer parse modelling `pd.to_numeric` on a string cell: optional
whitespace around an optionally signed run of digits.  Cells of the census
extracts are integer literals, so non-integer numeric forms are outside the
modelled cell domain and parse to `none` (coerced to `NaN`). -/
def parseIntChars (l : List Char) : Option Int :=
  match trimChars l with
  | [] => none
  | '-' :: ds =>
    if !ds.isEmpty && ds.all Char.isDigit then some (-(Int.ofNat (digitsToNat ds))) else none
  | '+' :: ds =>
    if !ds.isEmpty && ds.all Char.isDigit then some (Int.ofNat (digitsToNat ds)) else none
  | ds => if ds.all Char.isDigit then some (Int.ofNat (digitsToNat ds)) else none

/-- Result of `pd.to_numeric(cell, errors='coerce')`: numbers pass through,
missing values stay missing, strings are parsed (unparseable gives `none`). -/
def toNumericCell : Val → Option Int
  | .num n => some n
  | .nan => none
  | .str s => parseIntChars s.data

/-- One cell of `pd.to_numeric(col, errors='coerce').fillna(0).astype(int)`:
the parsed value, with unparseable or missing cells becoming `0`. -/
def coerceVal (v : Val) : Val := .num ((toNumericCell v).getD 0)

/-- Column renaming of `main.py`: a column containing `'총인구수'` becomes the
canonical total key; a column containing `'_계_'` is replaced by
`col.split('_계_')[-1].replace('세','').replace(' 이상','')`; anything else is
kept. -/
def renameMainCol (c : String) : String :=
  if strContains c "총인구수" then "총인구수"
  else if strContains c "_계_" then String.mk (removeIsang (removeSe (afterGye c.data)))
  else c

/-- Python's `s.split(' ')[0]`: the prefix of `s` before the first space
character (the whole string if there is no space).  This is the region-code
stripping step `df['행정구역'].str.split(' ').str[0]` of `main.py`. -/
def region_head (s : String) : String :=
  String.mk (s.data.takeWhile (fun c => !(c == ' ')))

/-- Region stripping on one cell: pandas' `.str` accessor maps non-string
cells to `NaN`. -/
def stripRegionVal : Val → Val
  | .str s => .str (region_head s)
  | _ => .nan

/-- Nationwide-row removal of `main.py`
(`if '전국' in df.iloc[0]['행정구역']: df = df.iloc[1:]`): `df.iloc[0]` raises
`IndexError` on an empty frame; the label lookup raises `KeyError` when the
region column is absent; the containment test raises `TypeError` on a
non-string cell. -/
def dropNationRow (f : Frame) : Except PyError Frame :=
  match f.rows with
  | [] => .error .indexError
  | r0 :: rest =>
    match f.headers.findIdx? (fun h => decide (h = "행정구역")) with
    | none => .error (.keyError "행정구역")
    | some j =>
      match r0[j]? with
      | some (.str s) => .ok (if strContains s "전국" then ⟨f.headers, rest⟩ else f)
      | some _ => .error .typeError
      | none => .error .indexError

/-- Column rename step of `main.py` (`df.rename(columns=new_columns)`). -/
def renameColumns (f : Frame) : Frame := ⟨f.headers.map renameMainCol, f.rows⟩

/-- Region-code stripping step of `main.py`
(`df['행정구역'] = df['행정구역'].str.split(' ').str[0]`). -/
def stripRegionCodes (f : Frame) : Except PyError Frame :=
  match f.headers.findIdx? (fun h => decide (h = "행정구역")) with
  | none => .error (.keyError "행정구역")
  | some j => .ok ⟨f.headers, f.rows.map (fun r => r.set j (stripRegionVal ((r[j]?).getD .nan)))⟩

/-- Coerce every cell of column `j` with `coerceVal` (the column assignment
`df[col] = pd.to_numeric(df[col], errors='coerce').fillna(0).astype(int)`). -/
def coerceColAt (f : Frame) (j : Nat) : Frame :=
  ⟨f.headers, f.rows.map (fun r => r.set j (coerceVal ((r[j]?).getD .nan)))⟩

/-- Number of columns carrying a given label. -/
def labelCount (hs : List String) (name : String) : Nat :=
  (hs.filter (fun h => decide (h = name))).length

/-- Coercion of the column labelled `name`: `df[name]` raises `KeyError` when
the label is absent, and with a duplicated label it yields a `DataFrame`, on
which `pd.to_numeric` raises a `TypeError`. -/
def coerceByName (f : Frame) (name : String) : Except PyError Frame :=
  match labelCount f.headers name with
  | 0 => .error (.keyError name)
  | 1 => .ok (coerceColAt f ((f.headers.findIdx? (fun h => decide (h = name))).getD 0))
  | _ => .error .typeError

/-- Numeric coercion loop of `main.py`:
`numeric_cols = [col for col in df.columns if col.isdigit()] + ['총인구수']`,
then each column in that order is coerced in place. -/
def coerceNumericColumns (f : Frame) : Except PyError Frame :=
  match (f.headers.filter pyIsDigit).foldlM coerceByName f with
  | .error e => .error e
  | .ok f1 => coerceByName f1 "총인구수"

/-- Loader/normalizer of `main.py` (`load_and_process_data`), applied to the
frame produced by `read_csv(file_path, encoding='EUC-KR', thousands=',')`. -/
def load_and_process_data (f : Frame) : Except PyError Frame :=
  match dropNationRow f with
  | .error e => .error e
  | .ok f1 =>
    match stripRegionCodes (renameColumns f1) with
    | .error e => .error e
    | .ok f3 => coerceNumericColumns f3

/-- Decides whether an `Except` result is a success. -/
def isOkE : Except PyError Frame → Bool
  | .ok _ => true
  | .error _ => false

/-- Column label of the 01-page frame after its renames: either a (string)
label kept as-is or an integer age key extracted by the regular expression. -/
inductive Hdr where
  | name (s : String)
  | age (n : Nat)
deriving DecidableEq, Repr

/-- Age header test (`isinstance(col, int)` in the 01 page). -/
def isAgeHdr : Hdr → Bool
  | .age _ => true
  | .name _ => false

/-- Output frame of the 01-page loader, with mixed string/integer labels. -/
structure Frame01 where
  headers : List Hdr
  rows : List (List Val)
deriving DecidableEq, Repr

/-- Attempted match of the regular expression `(\d+)(~|\s*세)` anchored at the
start of `l`: a nonempty greedy run of digits followed by `'~'`, or by
optional whitespace and `'세'`; returns the integer value of the digit run.
(Backtracking the greedy `\d+` can never help here, because neither
alternative can begin with a digit.) -/
def ageMatchAt (l : List Char) : Option Nat :=
  let ds := l.takeWhile Char.isDigit
  if ds.isEmpty then none
  else
    match l.dropWhile Char.isDigit with
    | '~' :: _ => some (digitsToNat ds)
    | rest =>
      match rest.dropWhile Char.isWhitespace with
      | '세' :: _ => some (digitsToNat ds)
      | _ => none

/-- Python's `re.search(r'(\d+)(~|\s*세)', col)` followed by
`int(match.group(1))`: the leftmost position where `ageMatchAt` succeeds. -/
def ageSearch : List Char → Option Nat
  | [] => none
  | c :: rest =>
    match ageMatchAt (c :: rest) with
    | some n => some n
    | none => ageSearch rest

/-- Age-column condition of the 01 page:
`'계_' in col and '세' in col and '총인구수' not in col and '세대수' not in col`. -/
def cond01 (c : String) : Bool :=
  strContains c "계_" && strContains c "세" && !(strContains c "총인구수") &&
    !(strContains c "세대수")

/-- Header classification of the 01 page: columns meeting `cond01` whose text
matches the age regular expression become integer age keys. -/
def hdr01 (c : String) : Hdr :=
  if cond01 c then
    match ageSearch c.data with
    | some n => Hdr.age n
    | none => Hdr.name c
  else Hdr.name c

/-- Loader of `pages/01_인구증감.py` (`load_and_process_data` there), applied
to the frame produced by `read_csv`.  The page returns `None` (surfacing a
single UI error) when the total-population column or the region column is
missing; otherwise it renames, selects `['행정구역', '총인구수'] + age_cols`
and coerces the numeric columns.  Column labels are assumed unique (as
`read_csv` guarantees via name mangling). -/
def load_and_process_data_01 (f : Frame) : Option Frame01 :=
  match f.headers.find? (fun c => strContains c "총인구수") with
  | none => none
  | some tc =>
    let hs1 := f.headers.map (fun c => if c = tc then "총인구수" else c)
    let hs2 := hs1.map hdr01
    if hs2.any (fun h => decide (h = Hdr.name "행정구역")) then
      let idxRegion := (hs2.findIdx? (fun h => decide (h = Hdr.name "행정구역"))).getD 0
      let idxTotal := (hs2.findIdx? (fun h => decide (h = Hdr.name "총인구수"))).getD 0
      let ageIdxs := (hs2.enum.filter (fun p => isAgeHdr p.2)).map Prod.fst
      let sel := idxRegion :: idxTotal :: ageIdxs
      let rows1 := f.rows.map (fun r => sel.map (fun i => (r[i]?).getD Val.nan))
      some ⟨Hdr.name "행정구역" :: Hdr.name "총인구수" :: hs2.filter isAgeHdr,
        rows1.map (fun r =>
          match r with
          | rg :: rest => rg :: rest.map coerceVal
          | [] => [])⟩
    else none

/-- Nationwide-row removal of `pages/02_출생등록.py`
(`df[df['행정구역'] != '전국']`): the comparison is an exact equality test per
cell (non-string cells compare unequal to the sentinel), and the label lookup
raises `KeyError` when the region column is absent. -/
def drop_national_02 (f : Frame) : Except PyError Frame :=
  match f.headers.findIdx? (fun h => decide (h = "행정구역")) with
  | none => .error (.keyError "행정구역")
  | some j => .ok ⟨f.headers, f.rows.filter (fun r =>
      match r[j]? with
      | some (.str s) => decide (s ≠ "전국")
      | _ => true)⟩

/-- Normalized row of the top-N/reshape stage: region name, ranking total, and
the age columns as (age key, count) pairs in column order.  This is the shape
the pages hand to `sort_values`/`nlargest` and `melt`. -/
structure NRow where
  region : String
  total : Int
  ages : List (Nat × Int)
deriving DecidableEq, Repr

/-- Descending comparison on the ranking total, the sort key of
`sort_values(by=..., ascending=False)` and `nlargest(5, ...)`. -/
def totGe (a b : NRow) : Prop := b.total ≤ a.total

instance : DecidableRel totGe := fun a b => inferInstanceAs (Decidable (b.total ≤ a.total))

instance : IsTotal NRow totGe := ⟨fun a b => le_total b.total a.total⟩

instance : IsTrans NRow totGe := ⟨fun _ _ _ h1 h2 => le_trans h2 h1⟩

/-- Descending sort by the ranking total, modelling
`sort_values(by=..., ascending=False)` up to tie order only.  pandas' default
`kind='quicksort'` (numpy introsort) carries no stability guarantee and can
reorder tied keys on larger inputs, so the insertion sort used here is just
one admissible tie order; only tie-order-independent properties (row
multiset, length, non-increasing totals) are asserted of this model.  The
01 page's `nlargest(5, ..., keep='first')` is the one contractually
tie-stable call site. -/
def sort_values_desc (l : List NRow) : List NRow := List.insertionSort totGe l

/-- Top-5 selection (`sort_values(by=..., ascending=False).head(5)` in
`main.py` and the 02 page, `nlargest(5, '총인구수')` in the 01 page). -/
def top5 (l : List NRow) : List NRow := (sort_values_desc l).take 5

/-- Row of the melted (long-format) chart table of the 01 page. -/
structure MeltRow where
  region : String
  total : Int
  age : Nat
  count : Int
deriving DecidableEq, Repr

/-- Label lookup on a (key, value) list: value of the first pair carrying the
key, `0` when absent. -/
def lookup0 (ps : List (Nat × Int)) (a : Nat) : Int :=
  ((ps.find? (fun q => decide (q.1 = a))).map Prod.snd).getD 0

/-- Value of row `r` under age column `a` (pandas label lookup on the row). -/
def cellOfAge (r : NRow) (a : Nat) : Int := lookup0 r.ages a

/-- Reshape of the 01 page:
`df_top5.melt(id_vars=['행정구역','총인구수'], value_vars=age_cols, ...)`.
pandas `melt` emits one block per value column, in `value_vars` order, and
within a block one row per table row, in table order. -/
def melt (ageCols : List Nat) (rows : List NRow) : List MeltRow :=
  ageCols.flatMap (fun a => rows.map (fun r =>
    { region := r.region, total := r.total, age := a, count := cellOfAge r a }))

/-- Rendered artefacts of `main.py` after the loader: the top-5 summary table,
the transposed chart table, and the full normalized table displayed as raw
data.  `sort_values`, `head` and `reset_index` are called with their defaults
(`inplace=False`), so selection builds new objects and the loader output is
displayed unchanged. -/
structure MainView where
  summary : List (String × Int)
  chart : List (Nat × List Int)
  rawTable : List NRow
deriving DecidableEq, Repr

/-- Main-page pipeline after loading: top-5 selection, summary and transposed
chart preparation, and the raw-data display of the full table. -/
def mainPageView (ageCols : List Nat) (rows : List NRow) : MainView :=
  let top5_df := top5 rows
  { summary := top5_df.map (fun r => (r.region, r.total)),
    chart := ageCols.map (fun a => (a, top5_df.map (fun r => cellOfAge r a))),
    rawTable := rows }

/-- Modelled from the spec: the spec's step 4 says the region field is
stripped "to the substring before the first whitespace character"; this
definition follows those words (the code itself splits on the space character
only). -/
def specWhitespaceHead (s : String) : String :=
  String.mk (s.data.takeWhile (fun c => !c.isWhitespace))

/-! ### General helper lemmas -/

theorem dropWhile_head_not {α : Type} (p : α → Bool) :
    ∀ (l : List α) (c : α) (rest : List α), l.dropWhile p = c :: rest → p c = false := by
  intro l
  induction l with
  | nil => intro c rest h; simp [List.dropWhile] at h
  | cons a t ih =>
    intro c rest h
    rw [List.dropWhile_cons] at h
    by_cases hp : p a = true
    · rw [if_pos hp] at h; exact ih c rest h
    · rw [if_neg hp] at h
      cases h
      simpa using hp

/-! ### Claim C7: region-code stripping -/

/-- Counterexample for C7: the normalizer cuts at the first space character
(`split(' ')`), not at the first whitespace character as claimed; on a region
field whose first whitespace is a tab the two disagree. -/
theorem c7_counterexample :
    region_head "a\tb c" = "a\tb" ∧ specWhitespaceHead "a\tb c" = "a" ∧
      region_head "a\tb c" ≠ specWhitespaceHead "a\tb c" := by
  refine ⟨rfl, rfl, ?_⟩
  decide

/-- Amended C7: the normalizer strips the region field to the substring before
the first space character — the returned prefix contains no space, prepending
it to the remainder restores the field, and the remainder is empty or starts
with a space; in particular `"서울특별시 (1100000000)"` normalizes to
`"서울특별시"`. -/
theorem c7_amended :
    region_head "서울특별시 (1100000000)" = "서울특별시" ∧
    ∀ s : String,
      (region_head s).data.all (fun c => !(c == ' ')) = true ∧
      (region_head s).data ++ s.data.dropWhile (fun c => !(c == ' ')) = s.data ∧
      (s.data.dropWhile (fun c => !(c == ' ')) = [] ∨
        ∃ rest, s.data.dropWhile (fun c => !(c == ' ')) = ' ' :: rest) := by
  refine ⟨rfl, ?_⟩
  intro s
  refine ⟨?_, ?_, ?_⟩
  · rw [List.all_eq_true]
    intro x hx
    have hx' : x ∈ s.data.takeWhile (fun c => !(c == ' ')) := hx
    exact @List.mem_takeWhile_imp Char (fun c => !(c == ' ')) s.data x hx'
  · exact List.takeWhile_append_dropWhile (fun c => !(c == ' ')) s.data
  · cases h : s.data.dropWhile (fun c => !(c == ' ')) with
    | nil => exact Or.inl rfl
    | cons c rest =>
      right
      have hc := dropWhile_head_not (fun c => !(c == ' ')) s.data c rest h
      simp only [Bool.not_eq_false'] at hc
      have : c = ' ' := by simpa using hc
      exact ⟨rest, by rw [this]⟩

/-! ### Claim C2: top-5 size and descending order -/

/-- Confirms C2: the top-5 selection returns `min 5 n` rows, pairwise in
non-increasing order of the ranking total. -/
theorem c2_top5_size_sorted :
    ∀ l : List NRow, (top5 l).length = min 5 l.length ∧ (top5 l).Pairwise totGe := by
  intro l
  constructor
  · simp [top5, sort_values_desc, List.length_take, List.length_insertionSort]
  · exact List.Pairwise.sublist (List.take_sublist 5 _) (List.sorted_insertionSort totGe l)

/-! ### Claim C10: selection does not modify the full table -/

/-- Confirms C10: the table rendered as raw data after top-5 selection is the
loader output itself, row for row; selection builds new objects
(`sort_values`/`head`/`reset_index` with `inplace=False`). -/
theorem c10_raw_unchanged :
    ∀ (ageCols : List Nat) (rows : List NRow), (mainPageView ageCols rows).rawTable = rows :=
  fun _ _ => rfl

/-! ### Claim C1: numeric fields of the normalized rows -/

/-- Counterexample for C1: the loader accepts a file with a negative cell and
passes the negative value through — `to_numeric(...).fillna(0).astype(int)`
does not clamp, so a numeric field of a `NormalizedRow` can be negative. -/
theorem c1_counterexample :
    load_and_process_data ⟨["행정구역", "0", "총인구수"],
        [[.str "서울특별시 (1100000000)", .num (-5), .num 10]]⟩ =
      .ok ⟨["행정구역", "0", "총인구수"], [[.str "서울특별시", .num (-5), .num 10]]⟩ ∧
    (-5 : Int) < 0 :=
  ⟨rfl, by decide⟩

/-! ### Claim C3: missing total-population column -/

/-- Counterexample for C3: a file none of whose columns contains the
total-population marker `'총인구수'` is still accepted by `main.py`'s loader,
because the age-rename of the column `"x_계_총인구세수"` strips `'세'` and
fabricates the canonical label `'총인구수'`. -/
theorem c3_counterexample :
    (["행정구역", "x_계_총인구세수"].all (fun c => !(strContains c "총인구수"))) = true ∧
    isOkE (load_and_process_data
      ⟨["행정구역", "x_계_총인구세수"], [[.str "서울 (11)", .num 3]]⟩) = true :=
  ⟨rfl, rfl⟩

/-! ### Claim C6: shape and order of the melted table -/

/-- Counterexample for C6: pandas `melt` emits one block per age column, so
the melted rows interleave the regions (`A, B, A, B`) instead of keeping each
region's rows together in Top5Table region order (`A, A, B, B`). -/
theorem c6_counterexample :
    (melt [0, 1] [⟨"A", 10, [(0, 1), (1, 2)]⟩, ⟨"B", 9, [(0, 3), (1, 4)]⟩]).map MeltRow.region =
      ["A", "B", "A", "B"] ∧
    ["A", "B", "A", "B"] ≠ ["A", "A", "B", "B"] := by
  exact ⟨rfl, by decide⟩

/-! ### Claim C8: idempotence of the nationwide-row drop -/

/-- Counterexample for C8: the nationwide check of `main.py` is a substring
test on the first row, so on a file whose second region also contains the
sentinel (`"전국특별시 (123)"`) running the loader on the already-stripped
file drops one more row (0 rows) than running it once on the original
(1 row). -/
theorem c8_counterexample :
    (load_and_process_data ⟨["행정구역", "x총인구수"],
        [[.str "전국", .num 1], [.str "전국특별시 (123)", .num 2]]⟩).map
      (fun g => g.rows.length) = .ok 1 ∧
    (load_and_process_data ⟨["행정구역", "x총인구수"],
        [[.str "전국특별시 (123)", .num 2]]⟩).map
      (fun g => g.rows.length) = .ok 0 :=
  ⟨rfl, rfl⟩

/-! ### Claim C9: zero data rows -/

/-- Counterexample for C9: on a file with no data rows at all the loader does
not return an empty sequence — `df.iloc[0]` in the nationwide check raises
`IndexError`, surfaced as the page error. -/
theorem c9_counterexample :
    load_and_process_data ⟨["행정구역", "2025_총인구수"], []⟩ = .error .indexError := rfl

/-- Amended C8: the positional drop is idempotent on every frame whose first
remaining region cell does not contain the sentinel (true of all real region
names), and the exact-match filter of the 02 page is unconditionally
idempotent. -/
theorem c8_amended :
    (∀ (g : Frame) (r0 : List Val) (rest : List (List Val)) (j : Nat) (s : String),
      g.rows = r0 :: rest →
      g.headers.findIdx? (fun h => decide (h = "행정구역")) = some j →
      r0[j]? = some (.str s) → strContains s "전국" = false →
      dropNationRow g = .ok g) ∧
    (∀ f g : Frame, drop_national_02 f = .ok g → drop_national_02 g = .ok g) := by
  constructor
  · intro g r0 rest j s hrows hidx hget hs
    simp only [dropNationRow, hrows, hidx, hget, hs]
    simp
  · intro f g h
    unfold drop_national_02 at h ⊢
    cases hix : f.headers.findIdx? (fun h => decide (h = "행정구역")) with
    | none => rw [hix] at h; exact absurd h (by simp)
    | some j =>
      rw [hix] at h
      rw [Except.ok.injEq] at h
      subst h
      rw [show (⟨f.headers, f.rows.filter (fun r =>
            match r[j]? with
            | some (.str s) => decide (s ≠ "전국")
            | _ => true)⟩ : Frame).headers = f.headers from rfl, hix]
      simp [List.filter_filter]

theorem findIdx?_some_pred_aux {α : Type} (p : α → Bool) :
    ∀ (l : List α) (i j : Nat), List.findIdx? p l i = some j →
      ∃ (k : Nat) (x : α), j = i + k ∧ l[k]? = some x ∧ p x = true := by
  intro l
  induction l with
  | nil => intro i j h; simp [List.findIdx?] at h
  | cons a t ih =>
    intro i j h
    rw [List.findIdx?_cons] at h
    by_cases hp : p a = true
    · rw [if_pos hp] at h
      rw [Option.some.injEq] at h
      exact ⟨0, a, by omega, List.getElem?_cons_zero, hp⟩
    · rw [if_neg hp] at h
      obtain ⟨k, x, hk, hx, hpx⟩ := ih (i + 1) j h
      exact ⟨k + 1, x, by omega, by simpa using hx, hpx⟩

/-- Successful `findIdx?` yields an element satisfying the predicate at the
returned position. -/
theorem findIdx?_some_pred {α : Type} (p : α → Bool) (l : List α) (j : Nat)
    (h : List.findIdx? p l = some j) : ∃ x, l[j]? = some x ∧ p x = true := by
  obtain ⟨k, x, hk, hx, hpx⟩ := findIdx?_some_pred_aux p l 0 j h
  exact ⟨x, by rw [show j = k from by omega]; exact hx, hpx⟩

/-- On a duplicate-free header list, a present label has count one. -/
theorem labelCount_eq_one_of_nodup :
    ∀ (hs : List String) (n : String), hs.Nodup → n ∈ hs → labelCount hs n = 1 := by
  intro hs
  induction hs with
  | nil => intro n _ h; cases h
  | cons a t ih =>
    intro n hnd hmem
    rw [List.nodup_cons] at hnd
    unfold labelCount
    rw [List.filter_cons]
    by_cases ha : a = n
    · rw [if_pos (by simp [ha])]
      have hnil : t.filter (fun h => decide (h = n)) = [] := by
        rw [List.filter_eq_nil_iff]
        intro b hb
        simp only [decide_eq_true_eq]
        intro hbn
        exact hnd.1 (by rw [ha, ← hbn]; exact hb)
      simp [hnil]
    · rw [if_neg (by simp [ha])]
      have hmem' : n ∈ t := by
        rcases List.mem_cons.mp hmem with h1 | h1
        · exact absurd h1.symm ha
        · exact h1
      exact ih n hnd.2 hmem'

theorem coerceColAt_headers (f : Frame) (j : Nat) : (coerceColAt f j).headers = f.headers := rfl

/-- Coercing a unique label on a frame without rows is the identity. -/
theorem coerceByName_empty_rows (f : Frame) (n : String) (hrows : f.rows = [])
    (hcount : labelCount f.headers n = 1) : coerceByName f n = .ok ⟨f.headers, []⟩ := by
  unfold coerceByName
  rw [hcount]
  simp [coerceColAt, hrows]

/-- The numeric-coercion fold succeeds and is the identity on a frame without
rows, provided each processed label is unique. -/
theorem foldlM_coerce_empty :
    ∀ (names : List String) (f : Frame), f.rows = [] →
      (∀ n ∈ names, labelCount f.headers n = 1) →
      names.foldlM coerceByName f = .ok ⟨f.headers, []⟩ := by
  intro names
  induction names with
  | nil =>
    intro f hrows _
    rw [List.foldlM_nil]
    rw [show f = (⟨f.headers, f.rows⟩ : Frame) from rfl, hrows]
    rfl
  | cons n rest ih =>
    intro f hrows hcounts
    rw [List.foldlM_cons]
    rw [coerceByName_empty_rows f n hrows (hcounts n (by simp))]
    exact ih ⟨f.headers, []⟩ rfl (fun m hm => hcounts m (by simp [hm]))

/-- Amended C9: a file whose single data row is the nationwide row loads to an
empty row sequence (no error), provided the renamed headers are duplicate-free
and include the canonical total key; a file with no rows at all instead fails
with an `IndexError` (see the counterexample). -/
theorem c9_amended :
    ∀ (f : Frame) (r0 : List Val) (j : Nat) (s : String),
      f.rows = [r0] →
      f.headers.findIdx? (fun h => decide (h = "행정구역")) = some j →
      r0[j]? = some (.str s) → strContains s "전국" = true →
      (f.headers.map renameMainCol).Nodup →
      "총인구수" ∈ f.headers.map renameMainCol →
      ∃ g, load_and_process_data f = .ok g ∧ g.rows = [] := by
  intro f r0 j s hrows hidx hget hs hnd hmem
  have h1 : dropNationRow f = .ok ⟨f.headers, []⟩ := by
    simp only [dropNationRow, hrows, hidx, hget, hs]
    simp
  have hmem2 : "행정구역" ∈ f.headers.map renameMainCol := by
    obtain ⟨x, hx, hpx⟩ := findIdx?_some_pred _ f.headers j hidx
    have hxeq : x = "행정구역" := by simpa using hpx
    have hxmem : x ∈ f.headers := List.mem_iff_getElem?.mpr ⟨j, hx⟩
    subst hxeq
    exact List.mem_map.mpr ⟨"행정구역", hxmem, rfl⟩
  obtain ⟨j2, hj2⟩ : ∃ j2,
      (f.headers.map renameMainCol).findIdx? (fun h => decide (h = "행정구역")) = some j2 := by
    cases hfi : (f.headers.map renameMainCol).findIdx? (fun h => decide (h = "행정구역")) with
    | some j2 => exact ⟨j2, rfl⟩
    | none =>
      rw [List.findIdx?_eq_none_iff] at hfi
      have hcon := hfi _ hmem2
      simp at hcon
  have hstrip : stripRegionCodes (renameColumns ⟨f.headers, []⟩) =
      .ok ⟨f.headers.map renameMainCol, []⟩ := by
    simp only [stripRegionCodes, renameColumns]
    rw [hj2]
    simp
  have hfold := foldlM_coerce_empty ((f.headers.map renameMainCol).filter pyIsDigit)
      ⟨f.headers.map renameMainCol, []⟩ rfl
      (fun n hn => labelCount_eq_one_of_nodup _ n hnd (List.mem_of_mem_filter hn))
  have hnum : coerceNumericColumns ⟨f.headers.map renameMainCol, []⟩ =
      .ok ⟨f.headers.map renameMainCol, []⟩ := by
    unfold coerceNumericColumns
    rw [hfold]
    exact coerceByName_empty_rows _ _ rfl (labelCount_eq_one_of_nodup _ _ hnd hmem)
  exact ⟨⟨f.headers.map renameMainCol, []⟩,
    by simp only [load_and_process_data, h1, hstrip, hnum], rfl⟩

/-- Witness for the amended C9: a file holding only the nationwide row loads
to an empty sequence. -/
theorem c9_amended_witness :
    ∃ g, load_and_process_data ⟨["행정구역", "x총인구수"], [[.str "전국 (00)", .num 99]]⟩ =
      .ok g ∧ g.rows = [] :=
  c9_amended ⟨["행정구역", "x총인구수"], [[.str "전국 (00)", .num 99]]⟩
    [.str "전국 (00)", .num 99] 0 "전국 (00)" rfl rfl rfl (by decide) (by decide) (by decide)

theorem dropNationRow_ok (f g : Frame) (h : dropNationRow f = .ok g) :
    g.headers = f.headers ∧ ∀ r ∈ g.rows, r ∈ f.rows := by
  unfold dropNationRow at h
  split at h
  · simp at h
  · rename_i r0 rest hrows
    split at h
    · simp at h
    · split at h
      · rw [Except.ok.injEq] at h
        subst h
        constructor
        · split <;> rfl
        · split
          · intro r hr
            rw [hrows]
            exact List.mem_cons_of_mem r0 hr
          · intro r hr
            exact hr
      · simp at h
      · simp at h

theorem stripRegionCodes_ok (f g : Frame) (h : stripRegionCodes f = .ok g) :
    g.headers = f.headers ∧ ∃ j,
      f.headers.findIdx? (fun h => decide (h = "행정구역")) = some j ∧
      g.rows = f.rows.map (fun r => r.set j (stripRegionVal ((r[j]?).getD .nan))) := by
  unfold stripRegionCodes at h
  split at h
  · simp at h
  · rename_i j hj
    rw [Except.ok.injEq] at h
    subst h
    exact ⟨rfl, j, hj, rfl⟩

theorem coerceByName_ok_headers (f g : Frame) (n : String) (h : coerceByName f n = .ok g) :
    g.headers = f.headers := by
  unfold coerceByName at h
  split at h
  · simp at h
  · rw [Except.ok.injEq] at h
    subst h
    rfl
  · simp at h

theorem foldlM_coerce_headers :
    ∀ (names : List String) (f g : Frame), names.foldlM coerceByName f = .ok g →
      g.headers = f.headers := by
  intro names
  induction names with
  | nil =>
    intro f g h
    rw [List.foldlM_nil] at h
    rw [show (pure f : Except PyError Frame) = .ok f from rfl, Except.ok.injEq] at h
    subst h
    rfl
  | cons n rest ih =>
    intro f g h
    rw [List.foldlM_cons] at h
    cases hc : coerceByName f n with
    | error e =>
      rw [hc] at h
      exact Except.noConfusion
        (h : (Except.error e : Except PyError Frame) = .ok g)
    | ok f1 =>
      rw [hc] at h
      exact (ih f1 g h).trans (coerceByName_ok_headers f f1 n hc)

/-- Amended C3: when no column classifies (or renames) to the canonical total
key, the `main.py` loader fails (no partial rows escape), and the 01-page
loader fails whenever no column contains the total marker; `main.py` alone can
be fooled by an age-pattern column whose extracted name collides with the
canonical key (see the counterexample). -/
theorem c3_amended :
    (∀ f : Frame, (∀ c ∈ f.headers, renameMainCol c ≠ "총인구수") →
      isOkE (load_and_process_data f) = false) ∧
    (∀ f : Frame, (∀ c ∈ f.headers, strContains c "총인구수" = false) →
      load_and_process_data_01 f = none) := by
  constructor
  · intro f hno
    unfold load_and_process_data
    cases h1 : dropNationRow f with
    | error e => rfl
    | ok f1 =>
      show isOkE (match stripRegionCodes (renameColumns f1) with
        | .error e => Except.error e
        | .ok f3 => coerceNumericColumns f3) = false
      cases h3 : stripRegionCodes (renameColumns f1) with
      | error e => rfl
      | ok f3 =>
        have hf1 : f1.headers = f.headers := (dropNationRow_ok f f1 h1).1
        have hf3 : f3.headers = f.headers.map renameMainCol := by
          rw [(stripRegionCodes_ok _ f3 h3).1]
          rw [show (renameColumns f1).headers = f1.headers.map renameMainCol from rfl, hf1]
        show isOkE (coerceNumericColumns f3) = false
        unfold coerceNumericColumns
        cases h4 : (f3.headers.filter pyIsDigit).foldlM coerceByName f3 with
        | error e => rfl
        | ok f4 =>
          have hf4 : f4.headers = f3.headers := foldlM_coerce_headers _ f3 f4 h4
          have hcount : labelCount f4.headers "총인구수" = 0 := by
            unfold labelCount
            rw [List.length_eq_zero, List.filter_eq_nil_iff]
            intro x hx
            rw [hf4, hf3] at hx
            obtain ⟨c, hc, hceq⟩ := List.mem_map.mp hx
            simp only [decide_eq_true_eq]
            intro hxeq
            exact hno c hc (by rw [hceq, hxeq])
          show isOkE (coerceByName f4 "총인구수") = false
          unfold coerceByName
          rw [hcount]
          rfl
  · intro f hno
    unfold load_and_process_data_01
    rw [show f.headers.find? (fun c => strContains c "총인구수") = none from
      List.find?_eq_none.mpr (fun x hx => by simp [hno x hx])]

/-- Witness for the amended C3 at a concrete frame with no total column. -/
theorem c3_amended_witness :
    isOkE (load_and_process_data ⟨["행정구역", "abc"], [[.str "전국x", .num 1]]⟩) = false ∧
    load_and_process_data_01 ⟨["행정구역", "abc"], [[.str "전국x", .num 1]]⟩ = none :=
  ⟨c3_amended.1 ⟨["행정구역", "abc"], [[.str "전국x", .num 1]]⟩ (by decide),
   c3_amended.2 ⟨["행정구역", "abc"], [[.str "전국x", .num 1]]⟩ (by decide)⟩

/-- Witness for the amended C8 at a concrete stripped frame. -/
theorem c8_amended_witness :
    dropNationRow ⟨["행정구역"], [[.str "서울특별시"]]⟩ = .ok ⟨["행정구역"], [[.str "서울특별시"]]⟩ ∧
    drop_national_02 ⟨["행정구역"], [[.str "서울특별시"]]⟩ = .ok ⟨["행정구역"], [[.str "서울특별시"]]⟩ :=
  ⟨c8_amended.1 ⟨["행정구역"], [[.str "서울특별시"]]⟩ [.str "서울특별시"] [] 0 "서울특별시" rfl rfl rfl
    (by decide),
   c8_amended.2 ⟨["행정구역"], [[.str "서울특별시"]]⟩ ⟨["행정구역"], [[.str "서울특별시"]]⟩ rfl⟩

/-! ### Claims C5 and C6: the melt reshape -/

theorem filter_flatMap_blocks {α β : Type} (p : β → Bool) (g : α → List β) :
    ∀ l : List α, (l.flatMap g).filter p = l.flatMap (fun a => (g a).filter p) := by
  intro l
  induction l with
  | nil => rfl
  | cons a t ih => simp only [List.flatMap_cons, List.filter_append, ih]

theorem flatMap_singleton_map {α β : Type} (g : α → β) :
    ∀ l : List α, (l.flatMap (fun a => [g a])) = l.map g := by
  intro l
  induction l with
  | nil => rfl
  | cons a t ih => simp only [List.flatMap_cons, ih]; rfl

theorem flatMap_nil_of_forall {α β : Type} (g : α → List β) :
    ∀ l : List α, (∀ x ∈ l, g x = []) → l.flatMap g = [] := by
  intro l
  induction l with
  | nil => intro _; rfl
  | cons a t ih =>
    intro hall
    rw [List.flatMap_cons, hall a (by simp), List.nil_append]
    exact ih (fun x hx => hall x (by simp [hx]))

/-- With duplicate-free region names, filtering the rows at a member's region
keeps exactly that row. -/
theorem filter_region_singleton :
    ∀ (rows : List NRow) (r0 : NRow), (rows.map NRow.region).Nodup → r0 ∈ rows →
      rows.filter (fun r => decide (r.region = r0.region)) = [r0] := by
  intro rows
  induction rows with
  | nil => intro r0 _ h; cases h
  | cons a t ih =>
    intro r0 hnd hmem
    rw [List.map_cons, List.nodup_cons] at hnd
    rw [List.filter_cons]
    rcases List.mem_cons.mp hmem with h1 | h1
    · subst h1
      rw [if_pos (by simp)]
      have hnil : t.filter (fun r => decide (r.region = r0.region)) = [] := by
        rw [List.filter_eq_nil_iff]
        intro b hb
        simp only [decide_eq_true_eq]
        intro hbeq
        exact hnd.1 (List.mem_map.mpr ⟨b, hb, hbeq⟩)
      rw [hnil]
    · have ha : ¬(a.region = r0.region) := by
        intro heq
        exact hnd.1 (List.mem_map.mpr ⟨r0, h1, heq.symm⟩)
      rw [if_neg (by simpa using ha)]
      exact ih r0 hnd.2 h1

/-- Reading every key of a duplicate-free (key, value) list back through the
label lookup reconstructs the list. -/
theorem lookup0_reconstruct_self :
    ∀ ps : List (Nat × Int), (ps.map Prod.fst).Nodup →
      (ps.map Prod.fst).map (fun a => (a, lookup0 ps a)) = ps := by
  intro ps
  induction ps with
  | nil => intro _; rfl
  | cons q t ih =>
    intro hnd
    rw [List.map_cons, List.nodup_cons] at hnd
    rw [List.map_cons, List.map_cons]
    have hhead : lookup0 (q :: t) q.1 = q.2 := by
      unfold lookup0
      rw [List.find?_cons_of_pos _ (by simp)]
      rfl
    have hcong : ∀ a ∈ t.map Prod.fst, (a, lookup0 (q :: t) a) = (a, lookup0 t a) := by
      intro a ha
      have hne : ¬(q.1 = a) := fun hEq => hnd.1 (hEq ▸ ha)
      unfold lookup0
      rw [List.find?_cons_of_neg _ (by simpa using hne)]
    rw [hhead, List.map_congr_left hcong, ih hnd.2]

theorem lookup0_reconstruct (ps : List (Nat × Int)) (cols : List Nat)
    (hc : ps.map Prod.fst = cols) (hnd : cols.Nodup) :
    cols.map (fun a => (a, lookup0 ps a)) = ps := by
  subst hc
  exact lookup0_reconstruct_self ps hnd

/-- Reading every key back gives the stored values in order. -/
theorem lookup0_values (ps : List (Nat × Int)) (cols : List Nat)
    (hc : ps.map Prod.fst = cols) (hnd : cols.Nodup) :
    cols.map (fun a => lookup0 ps a) = ps.map Prod.snd := by
  have h := congrArg (List.map Prod.snd) (lookup0_reconstruct ps cols hc hnd)
  simpa [List.map_map, Function.comp] using h

theorem sum_map_add_int {β : Type} (l : List β) (g h : β → Int) :
    (l.map (fun b => g b + h b)).sum = (l.map g).sum + (l.map h).sum := by
  induction l with
  | nil => simp
  | cons a t ih =>
    simp only [List.map_cons, List.sum_cons, ih]
    ring

theorem sum_map_zero_int {β : Type} (l : List β) :
    (l.map (fun _ => (0 : Int))).sum = 0 := by
  induction l with
  | nil => rfl
  | cons a t ih => simp [ih]

theorem sum_swap_int {α β : Type} (l1 : List α) (l2 : List β) (f : α → β → Int) :
    (l1.map (fun a => (l2.map (f a)).sum)).sum =
      (l2.map (fun b => (l1.map (fun a => f a b)).sum)).sum := by
  induction l1 with
  | nil =>
    simp only [List.map_nil, List.sum_nil]
    exact (sum_map_zero_int l2).symm
  | cons a t ih =>
    simp only [List.map_cons, List.sum_cons, ih]
    exact (sum_map_add_int l2 (fun b => f a b) (fun b => (t.map (fun a => f a b)).sum)).symm

theorem sum_flatMap_int {α : Type} (g : α → List Int) :
    ∀ l : List α, (l.flatMap g).sum = (l.map (fun a => (g a).sum)).sum := by
  intro l
  induction l with
  | nil => rfl
  | cons a t ih => simp only [List.flatMap_cons, List.sum_append, List.map_cons, List.sum_cons, ih]

/-- One melted block, restricted to a fixed region name, lists exactly the
matching rows' cells. -/
theorem melt_block_filter_region (a : Nat) (rows : List NRow) (name : String) :
    ((rows.map (fun r => (⟨r.region, r.total, a, cellOfAge r a⟩ : MeltRow))).filter
        (fun m => decide (m.region = name))) =
      (rows.filter (fun r => decide (r.region = name))).map
        (fun r => (⟨r.region, r.total, a, cellOfAge r a⟩ : MeltRow)) := by
  rw [List.filter_map]
  rfl

theorem sum_map_const_nat {α : Type} (l : List α) (k : Nat) :
    (l.map (fun _ => k)).sum = l.length * k := by
  induction l with
  | nil => simp
  | cons a t ih =>
    simp only [List.map_cons, List.sum_cons, List.length_cons, ih]
    ring

/-- Confirms C5: for every region name, summing `count` over the melted rows
carrying that name equals the sum of the age-column values of the table rows
carrying that name (with unique region names, the single matching row). -/
theorem c5_melt_mass :
    ∀ (cols : List Nat) (rows : List NRow),
      (∀ r ∈ rows, r.ages.map Prod.fst = cols) → cols.Nodup →
      ∀ name : String,
        (((melt cols rows).filter (fun m => decide (m.region = name))).map MeltRow.count).sum =
          ((rows.filter (fun r => decide (r.region = name))).map
            (fun r => (r.ages.map Prod.snd).sum)).sum := by
  intro cols rows hwf hndC name
  unfold melt
  rw [filter_flatMap_blocks]
  rw [funext (fun a => melt_block_filter_region a rows name)]
  rw [List.map_flatMap]
  rw [show (fun a => ((rows.filter (fun r => decide (r.region = name))).map
        (fun r => (⟨r.region, r.total, a, cellOfAge r a⟩ : MeltRow))).map MeltRow.count) =
      fun a => (rows.filter (fun r => decide (r.region = name))).map (fun r => cellOfAge r a)
    from funext (fun a => by rw [List.map_map]; rfl)]
  rw [sum_flatMap_int]
  rw [sum_swap_int]
  apply congrArg List.sum
  apply List.map_congr_left
  intro r hr
  have hrmem : r ∈ rows := List.mem_of_mem_filter hr
  have hvals := lookup0_values r.ages cols (hwf r hrmem) hndC
  exact congrArg List.sum hvals

/-- Witness for C5 at a concrete two-region, two-age table. -/
theorem c5_melt_mass_witness :
    (((melt [0, 1] [⟨"A", 10, [(0, 1), (1, 2)]⟩, ⟨"B", 9, [(0, 3), (1, 4)]⟩]).filter
        (fun m => decide (m.region = "A"))).map MeltRow.count).sum =
      ((([⟨"A", 10, [(0, 1), (1, 2)]⟩, ⟨"B", 9, [(0, 3), (1, 4)]⟩] : List NRow).filter
        (fun r => decide (r.region = "A"))).map (fun r => (r.ages.map Prod.snd).sum)).sum :=
  c5_melt_mass [0, 1] [⟨"A", 10, [(0, 1), (1, 2)]⟩, ⟨"B", 9, [(0, 3), (1, 4)]⟩]
    (by decide) (by decide) "A"

/-- The melted rows carrying a fixed age list the regions in table order. -/
theorem melt_age_block :
    ∀ (cols : List Nat) (rows : List NRow) (a : Nat), cols.Nodup → a ∈ cols →
      ((melt cols rows).filter (fun m => decide (m.age = a))).map MeltRow.region =
        rows.map NRow.region := by
  intro cols
  induction cols with
  | nil => intro rows a _ ha; cases ha
  | cons c t ih =>
    intro rows a hnd ha
    rw [List.nodup_cons] at hnd
    rw [show melt (c :: t) rows =
      (rows.map (fun r => (⟨r.region, r.total, c, cellOfAge r c⟩ : MeltRow))) ++ melt t rows
      from rfl]
    rw [List.filter_append, List.map_append]
    rcases List.mem_cons.mp ha with h1 | h1
    · subst h1
      have hblock : (rows.map (fun r =>
            (⟨r.region, r.total, a, cellOfAge r a⟩ : MeltRow))).filter
            (fun m => decide (m.age = a)) =
          rows.map (fun r => (⟨r.region, r.total, a, cellOfAge r a⟩ : MeltRow)) := by
        rw [List.filter_map]
        have hcomp : ((fun m : MeltRow => decide (m.age = a)) ∘
            fun r : NRow => (⟨r.region, r.total, a, cellOfAge r a⟩ : MeltRow)) =
            fun _ => true := by
          funext r
          simp
        rw [hcomp, List.filter_true]
      have hrest : (melt t rows).filter (fun m => decide (m.age = a)) = [] := by
        rw [List.filter_eq_nil_iff]
        intro m hm
        have hage : m.age ∈ t := by
          unfold melt at hm
          rw [List.mem_flatMap] at hm
          obtain ⟨a', ha', hm'⟩ := hm
          rw [List.mem_map] at hm'
          obtain ⟨r, _, hr⟩ := hm'
          rw [← hr]
          exact ha'
        simp only [decide_eq_true_eq]
        intro heq
        exact hnd.1 (heq ▸ hage)
      rw [hblock, hrest, List.map_nil, List.append_nil, List.map_map]
      rfl
    · have hac : ¬(c = a) := fun hEq => hnd.1 (hEq ▸ h1)
      have hblock : (rows.map (fun r =>
            (⟨r.region, r.total, c, cellOfAge r c⟩ : MeltRow))).filter
            (fun m => decide (m.age = a)) = [] := by
        rw [List.filter_eq_nil_iff]
        intro m hm
        rw [List.mem_map] at hm
        obtain ⟨r, _, hr⟩ := hm
        simp only [decide_eq_true_eq]
        intro heq
        exact hac (by rw [← hr] at heq; exact heq)
      rw [hblock]
      simp only [List.map_nil, List.nil_append]
      exact ih rows a hnd.2 h1

/-- Amended C6: melt produces exactly one row per (region, age) pair with
explicit region, age and count fields, but ordered age-major rather than
region-major: one block per age column in column order, each block listing the
regions in Top5Table order; consequently the rows of a fixed region, read in
output order, carry exactly that region's (age, count) pairs in the file's
column order (ascending whenever the age columns are ascending). -/
theorem c6_amended :
    ∀ (cols : List Nat) (rows : List NRow),
      (∀ r ∈ rows, r.ages.map Prod.fst = cols) → cols.Nodup →
      (rows.map NRow.region).Nodup →
      (melt cols rows).length = cols.length * rows.length ∧
      (∀ r0 ∈ rows, ((melt cols rows).filter (fun m => decide (m.region = r0.region))).map
          (fun m => (m.age, m.count)) = r0.ages) ∧
      (∀ a ∈ cols, ((melt cols rows).filter (fun m => decide (m.age = a))).map MeltRow.region =
          rows.map NRow.region) := by
  intro cols rows hwf hndC hndR
  refine ⟨?_, ?_, ?_⟩
  · unfold melt
    rw [List.length_flatMap]
    rw [show (List.map (List.length ∘ fun a => rows.map
        (fun r => (⟨r.region, r.total, a, cellOfAge r a⟩ : MeltRow))) cols) =
      cols.map (fun _ => rows.length) from
        List.map_congr_left (fun a _ => List.length_map rows _)]
    exact sum_map_const_nat cols rows.length
  · intro r0 hr0
    unfold melt
    rw [filter_flatMap_blocks]
    rw [funext (fun a => melt_block_filter_region a rows r0.region)]
    rw [filter_region_singleton rows r0 hndR hr0]
    rw [show (fun a => ([r0].map (fun r => (⟨r.region, r.total, a, cellOfAge r a⟩ : MeltRow)))) =
      fun a => [(⟨r0.region, r0.total, a, cellOfAge r0 a⟩ : MeltRow)] from rfl]
    rw [flatMap_singleton_map, List.map_map]
    exact lookup0_reconstruct r0.ages cols (hwf r0 hr0) hndC
  · intro a ha
    exact melt_age_block cols rows a hndC ha

/-- Witness for the amended C6 at a concrete two-region, two-age table. -/
theorem c6_amended_witness :
    (melt [0, 1] [⟨"A", 10, [(0, 1), (1, 2)]⟩, ⟨"B", 9, [(0, 3), (1, 4)]⟩]).length = 2 * 2 ∧
    ((melt [0, 1] [⟨"A", 10, [(0, 1), (1, 2)]⟩, ⟨"B", 9, [(0, 3), (1, 4)]⟩]).filter
        (fun m => decide (m.region = (⟨"A", 10, [(0, 1), (1, 2)]⟩ : NRow).region))).map
      (fun m => (m.age, m.count)) = (⟨"A", 10, [(0, 1), (1, 2)]⟩ : NRow).ages := by
  have h := c6_amended [0, 1] [⟨"A", 10, [(0, 1), (1, 2)]⟩, ⟨"B", 9, [(0, 3), (1, 4)]⟩]
    (by decide) (by decide) (by decide)
  exact ⟨h.1, h.2.1 ⟨"A", 10, [(0, 1), (1, 2)]⟩ (by decide)⟩

/-! ### Claim C1: cell-level lemmas for the numeric-coercion loop -/

theorem coerceVal_idem (v : Val) : coerceVal (coerceVal v) = coerceVal v := rfl

theorem coerceVal_comp : coerceVal ∘ coerceVal = coerceVal :=
  funext (fun v => coerceVal_idem v)

theorem coerceColAt_rows_length (f : Frame) (j : Nat) :
    (coerceColAt f j).rows.length = f.rows.length := by
  unfold coerceColAt
  exact List.length_map f.rows _

theorem coerceColAt_cellAt (f : Frame) (j i p : Nat) :
    (coerceColAt f j).cellAt i p =
      if p = j then (f.cellAt i p).map coerceVal else f.cellAt i p := by
  unfold coerceColAt Frame.cellAt
  rw [show (⟨f.headers, f.rows.map (fun r => r.set j (coerceVal ((r[j]?).getD .nan)))⟩ :
      Frame).rows = f.rows.map (fun r => r.set j (coerceVal ((r[j]?).getD .nan))) from rfl]
  rw [List.getElem?_map]
  cases hri : f.rows[i]? with
  | none =>
    simp only [Option.map_none', Option.none_bind, ite_self]
  | some r =>
    simp only [Option.map_some', Option.some_bind]
    by_cases hpj : p = j
    · subst hpj
      rw [if_pos rfl]
      by_cases hlt : p < r.length
      · rw [List.getElem?_set_self hlt]
        rw [List.getElem?_eq_getElem hlt]
        rfl
      · push_neg at hlt
        rw [List.set_eq_of_length_le hlt, List.getElem?_eq_none hlt]
        rfl
    · rw [if_neg hpj]
      exact List.getElem?_set_ne (fun hEq => hpj hEq.symm)

theorem two_le_labelCount :
    ∀ (hs : List String) (n : String) (p q : Nat), p ≠ q → hs[p]? = some n → hs[q]? = some n →
      2 ≤ labelCount hs n := by
  intro hs
  induction hs with
  | nil => intro n p q _ hp _; simp at hp
  | cons a t ih =>
    intro n p q hpq hp hq
    unfold labelCount
    rw [List.filter_cons]
    cases p with
    | zero =>
      cases q with
      | zero => exact absurd rfl hpq
      | succ q' =>
        rw [List.getElem?_cons_zero, Option.some.injEq] at hp
        rw [List.getElem?_cons_succ] at hq
        rw [if_pos (by simp [hp])]
        have hmem : n ∈ t := List.mem_iff_getElem?.mpr ⟨q', hq⟩
        have hmemf : n ∈ t.filter (fun h => decide (h = n)) :=
          List.mem_filter.mpr ⟨hmem, by simp⟩
        have hpos : 0 < (t.filter (fun h => decide (h = n))).length :=
          List.length_pos.mpr (List.ne_nil_of_mem hmemf)
        simp only [List.length_cons]
        omega
    | succ p' =>
      cases q with
      | zero =>
        rw [List.getElem?_cons_zero, Option.some.injEq] at hq
        rw [List.getElem?_cons_succ] at hp
        rw [if_pos (by simp [hq])]
        have hmem : n ∈ t := List.mem_iff_getElem?.mpr ⟨p', hp⟩
        have hmemf : n ∈ t.filter (fun h => decide (h = n)) :=
          List.mem_filter.mpr ⟨hmem, by simp⟩
        have hpos : 0 < (t.filter (fun h => decide (h = n))).length :=
          List.length_pos.mpr (List.ne_nil_of_mem hmemf)
        simp only [List.length_cons]
        omega
      | succ q' =>
        rw [List.getElem?_cons_succ] at hp hq
        have hrec := ih n p' q' (fun hEq => hpq (by rw [hEq])) hp hq
        unfold labelCount at hrec
        by_cases hd : decide (a = n) = true
        · rw [if_pos hd]
          simp only [List.length_cons]
          omega
        · rw [if_neg hd]
          exact hrec

theorem labelCount_one_unique (hs : List String) (n : String) (hcount : labelCount hs n = 1)
    (p q : Nat) (hp : hs[p]? = some n) (hq : hs[q]? = some n) : p = q := by
  by_contra hpq
  have := two_le_labelCount hs n p q hpq hp hq
  omega

theorem labelCount_pos_findIdx (hs : List String) (n : String) (hcount : labelCount hs n = 1) :
    ∃ j, hs.findIdx? (fun h => decide (h = n)) = some j ∧ hs[j]? = some n := by
  have hmem : ∃ x ∈ hs, decide (x = n) = true := by
    by_contra hno
    push_neg at hno
    have hnil : hs.filter (fun h => decide (h = n)) = [] :=
      List.filter_eq_nil_iff.mpr (fun a ha => by simp [hno a ha])
    unfold labelCount at hcount
    rw [hnil] at hcount
    simp at hcount
  obtain ⟨x, hx, hpx⟩ := hmem
  cases hfi : hs.findIdx? (fun h => decide (h = n)) with
  | none =>
    rw [List.findIdx?_eq_none_iff] at hfi
    have := hfi x hx
    rw [hpx] at this
    cases this
  | some j =>
    obtain ⟨y, hy, hpy⟩ := findIdx?_some_pred _ hs j hfi
    have hyn : y = n := by simpa using hpy
    exact ⟨j, rfl, by rw [hy, hyn]⟩

theorem coerceByName_ok_spec (f f1 : Frame) (n : String) (hc : coerceByName f n = .ok f1) :
    ∃ j, f.headers[j]? = some n ∧ labelCount f.headers n = 1 ∧ f1 = coerceColAt f j := by
  unfold coerceByName at hc
  split at hc
  · simp at hc
  · rename_i hcount
    rw [Except.ok.injEq] at hc
    obtain ⟨j, hfi, hj⟩ := labelCount_pos_findIdx f.headers n hcount
    refine ⟨j, hj, hcount, ?_⟩
    rw [← hc, hfi]
    rfl
  · simp at hc

/-- Characterization of the numeric-coercion fold: headers and row count are
preserved, cells under a processed label are coerced once, other cells are
untouched. -/
theorem foldlM_coerce_cell :
    ∀ (names : List String) (f g : Frame), names.foldlM coerceByName f = .ok g →
      g.headers = f.headers ∧ g.rows.length = f.rows.length ∧
      ∀ (i p : Nat) (h : String), f.headers[p]? = some h →
        ((h ∈ names → g.cellAt i p = (f.cellAt i p).map coerceVal) ∧
         (h ∉ names → g.cellAt i p = f.cellAt i p)) := by
  intro names
  induction names with
  | nil =>
    intro f g hfold
    rw [List.foldlM_nil] at hfold
    rw [show (pure f : Except PyError Frame) = .ok f from rfl, Except.ok.injEq] at hfold
    subst hfold
    exact ⟨rfl, rfl, fun i p h hp =>
      ⟨fun hmem => absurd hmem (List.not_mem_nil h), fun _ => rfl⟩⟩
  | cons n rest ih =>
    intro f g hfold
    rw [List.foldlM_cons] at hfold
    cases hc : coerceByName f n with
    | error e =>
      rw [hc] at hfold
      exact Except.noConfusion (hfold : (Except.error e : Except PyError Frame) = .ok g)
    | ok f1 =>
      rw [hc] at hfold
      have hfold' : rest.foldlM coerceByName f1 = .ok g := hfold
      obtain ⟨hh1, hl1, hcells1⟩ := ih f1 g hfold'
      obtain ⟨j, hjhdr, hcount, hf1⟩ := coerceByName_ok_spec f f1 n hc
      have hh1' : f1.headers = f.headers := by rw [hf1]; rfl
      have hlen1 : f1.rows.length = f.rows.length := by
        rw [hf1]
        exact coerceColAt_rows_length f j
      refine ⟨hh1.trans hh1', hl1.trans hlen1, ?_⟩
      intro i p h hp
      have hp1 : f1.headers[p]? = some h := by rw [hh1']; exact hp
      constructor
      · intro hmem
        rcases List.mem_cons.mp hmem with hhn | hmemr
        · by_cases hmemr2 : h ∈ rest
          · have hg : g.cellAt i p = (f1.cellAt i p).map coerceVal := (hcells1 i p h hp1).1 hmemr2
            rw [hg, hf1, coerceColAt_cellAt]
            by_cases hpj : p = j
            · rw [if_pos hpj, Option.map_map, coerceVal_comp]
            · rw [if_neg hpj]
          · have hg : g.cellAt i p = f1.cellAt i p := (hcells1 i p h hp1).2 hmemr2
            have hpj : p = j :=
              labelCount_one_unique f.headers n hcount p j (by rw [← hhn]; exact hp) hjhdr
            rw [hg, hf1, coerceColAt_cellAt, if_pos hpj]
        · have hg : g.cellAt i p = (f1.cellAt i p).map coerceVal := (hcells1 i p h hp1).1 hmemr
          rw [hg, hf1, coerceColAt_cellAt]
          by_cases hpj : p = j
          · rw [if_pos hpj, Option.map_map, coerceVal_comp]
          · rw [if_neg hpj]
      · intro hnmem
        have hnn : h ≠ n := fun hEq => hnmem (by rw [hEq]; exact List.mem_cons_self n rest)
        have hnr : h ∉ rest := fun hEq => hnmem (List.mem_cons_of_mem n hEq)
        have hg : g.cellAt i p = f1.cellAt i p := (hcells1 i p h hp1).2 hnr
        have hpj : p ≠ j := by
          intro hEq
          rw [hEq, hjhdr, Option.some.injEq] at hp
          exact hnn hp.symm
        rw [hg, hf1, coerceColAt_cellAt, if_neg hpj]

/-- Characterization of the full numeric-coercion step of `main.py`: on
success, headers and row count are kept and every cell under a digit-named
column or the canonical total column is coerced with `coerceVal`. -/
theorem coerceNumericColumns_cell (f g : Frame) (h : coerceNumericColumns f = .ok g) :
    g.headers = f.headers ∧ g.rows.length = f.rows.length ∧
    ∀ (i p : Nat) (hd : String), f.headers[p]? = some hd →
      (pyIsDigit hd || decide (hd = "총인구수")) = true →
      g.cellAt i p = (f.cellAt i p).map coerceVal := by
  unfold coerceNumericColumns at h
  cases hfold : (f.headers.filter pyIsDigit).foldlM coerceByName f with
  | error e =>
    rw [hfold] at h
    exact Except.noConfusion (h : (Except.error e : Except PyError Frame) = .ok g)
  | ok f1 =>
    rw [hfold] at h
    have h2 : coerceByName f1 "총인구수" = .ok g := h
    obtain ⟨hh1, hl1, hcells1⟩ := foldlM_coerce_cell _ f f1 hfold
    obtain ⟨j2, hj2hdr, hcount2, hg⟩ := coerceByName_ok_spec f1 g _ h2
    have hgh : g.headers = f.headers := by
      rw [hg, show (coerceColAt f1 j2).headers = f1.headers from rfl]
      exact hh1
    have hgl : g.rows.length = f.rows.length := by
      rw [hg, coerceColAt_rows_length]
      exact hl1
    refine ⟨hgh, hgl, ?_⟩
    intro i p hd hp hnum
    have hnum2 : pyIsDigit hd = true ∨ hd = "총인구수" := by simpa using hnum
    rcases hnum2 with hdig | htot
    · have hmemf : hd ∈ f.headers.filter pyIsDigit :=
        List.mem_filter.mpr ⟨List.mem_iff_getElem?.mpr ⟨p, hp⟩, hdig⟩
      have hcell1 : f1.cellAt i p = (f.cellAt i p).map coerceVal := (hcells1 i p hd hp).1 hmemf
      have hne : p ≠ j2 := by
        intro hEq
        have hp1 : f1.headers[p]? = some hd := by rw [hh1]; exact hp
        rw [hEq, hj2hdr, Option.some.injEq] at hp1
        rw [← hp1] at hdig
        exact absurd hdig (by decide)
      rw [hg, coerceColAt_cellAt, if_neg hne, hcell1]
    · have hdeq : hd = "총인구수" := htot
      have hnotmem : hd ∉ f.headers.filter pyIsDigit := by
        intro hmem
        have hdig := (List.mem_filter.mp hmem).2
        rw [hdeq] at hdig
        exact absurd hdig (by decide)
      have hcell1 : f1.cellAt i p = f.cellAt i p := (hcells1 i p hd hp).2 hnotmem
      have hp1 : f1.headers[p]? = some "총인구수" := by rw [hh1, ← hdeq]; exact hp
      have hpj : p = j2 := labelCount_one_unique f1.headers _ hcount2 p j2 hp1 hj2hdr
      rw [hg, coerceColAt_cellAt, if_pos hpj, hcell1]

/-- Amended C1: the loader outputs integer cells (`Val.num`) in every numeric
column, and unparseable or missing cells coerce to `0`, never to a null or a
per-cell failure; non-negativity however holds only provided every input cell
parses to a non-negative value — the code does not clamp, and a negative input
cell survives to the output (see the counterexample). -/
theorem c1_amended :
    ∀ (f g : Frame),
      (∀ r ∈ f.rows, r.length = f.headers.length) →
      (∀ r ∈ f.rows, ∀ v ∈ r, 0 ≤ (toNumericCell v).getD 0) →
      load_and_process_data f = .ok g →
      (∀ (p : Nat) (hd : String), g.headers[p]? = some hd →
        (pyIsDigit hd || decide (hd = "총인구수")) = true →
        ∀ r ∈ g.rows, ∃ n : Int, r[p]? = some (.num n) ∧ 0 ≤ n) ∧
      (∀ v : Val, toNumericCell v = none → coerceVal v = .num 0) := by
  intro f g hwf hnn hload
  refine ⟨?_, ?_⟩
  swap
  · intro v hv
    unfold coerceVal
    rw [hv]
    rfl
  · intro p hd hph hnum r hr
    unfold load_and_process_data at hload
    cases h1 : dropNationRow f with
    | error e =>
      rw [h1] at hload
      exact Except.noConfusion (hload : (Except.error e : Except PyError Frame) = .ok g)
    | ok f1 =>
      rw [h1] at hload
      have hload2 : (match stripRegionCodes (renameColumns f1) with
          | .error e => Except.error e
          | .ok f3 => coerceNumericColumns f3) = .ok g := hload
      cases h3 : stripRegionCodes (renameColumns f1) with
      | error e =>
        rw [h3] at hload2
        exact Except.noConfusion (hload2 : (Except.error e : Except PyError Frame) = .ok g)
      | ok f3 =>
        rw [h3] at hload2
        have h4 : coerceNumericColumns f3 = .ok g := hload2
        obtain ⟨hh1, hrows1⟩ := dropNationRow_ok f f1 h1
        obtain ⟨hh3, jR, hjR, hrows3⟩ := stripRegionCodes_ok (renameColumns f1) f3 h3
        obtain ⟨hh4, hl4, hcells4⟩ := coerceNumericColumns_cell f3 g h4
        have hh3' : f3.headers = f1.headers.map renameMainCol := by rw [hh3]; rfl
        have hph3 : f3.headers[p]? = some hd := by rw [← hh4]; exact hph
        obtain ⟨i, hi⟩ := List.mem_iff_getElem?.mp hr
        have hgcell : g.cellAt i p = r[p]? := by
          unfold Frame.cellAt
          rw [hi]
          rfl
        have hrel : g.cellAt i p = (f3.cellAt i p).map coerceVal := hcells4 i p hd hph3 hnum
        obtain ⟨hilen, _⟩ := List.getElem?_eq_some.mp hi
        have hi3 : i < f3.rows.length := by
          rw [← hl4]
          exact hilen
        have hrows3' : f3.rows =
            f1.rows.map (fun r => r.set jR (stripRegionVal ((r[jR]?).getD .nan))) := by
          rw [hrows3]
          rfl
        have hi1 : i < f1.rows.length := by
          rw [hrows3', List.length_map] at hi3
          exact hi3
        obtain ⟨r1, hr1⟩ : ∃ r1, f1.rows[i]? = some r1 := ⟨_, List.getElem?_eq_getElem hi1⟩
        have hr1mem : r1 ∈ f.rows := hrows1 r1 (List.mem_iff_getElem?.mpr ⟨i, hr1⟩)
        have hr1len : r1.length = f.headers.length := hwf r1 hr1mem
        have hplt : p < f.headers.length := by
          obtain ⟨hlt, _⟩ := List.getElem?_eq_some.mp hph
          rw [hh4, hh3', List.length_map, hh1] at hlt
          exact hlt
        have hjRhdr : (renameColumns f1).headers[jR]? = some "행정구역" := by
          obtain ⟨x, hx, hpx⟩ := findIdx?_some_pred _ _ jR hjR
          have hxeq : x = "행정구역" := by simpa using hpx
          rw [← hxeq]
          exact hx
        have hpjR : p ≠ jR := by
          intro hEq
          have hph2 : (renameColumns f1).headers[p]? = some hd := by
            rw [show (renameColumns f1).headers = f3.headers from hh3.symm]
            exact hph3
          rw [hEq, hjRhdr, Option.some.injEq] at hph2
          rw [← hph2] at hnum
          exact absurd hnum (by decide)
        have hrows2 : (renameColumns f1).rows = f1.rows := rfl
        have hcell3 : f3.cellAt i p = r1[p]? := by
          unfold Frame.cellAt
          rw [hrows3', List.getElem?_map, hr1]
          exact List.getElem?_set_ne (fun hEq => hpjR hEq.symm)
        have hplt1 : p < r1.length := by
          rw [hr1len]
          exact hplt
        obtain ⟨v, hv⟩ : ∃ v, r1[p]? = some v := ⟨_, List.getElem?_eq_getElem hplt1⟩
        have hvmem : v ∈ r1 := List.mem_iff_getElem?.mpr ⟨p, hv⟩
        have hvn : 0 ≤ (toNumericCell v).getD 0 := hnn r1 hr1mem v hvmem
        refine ⟨(toNumericCell v).getD 0, ?_, hvn⟩
        rw [← hgcell, hrel, hcell3, hv]
        rfl

/-- Witness for the amended C1: a frame with an unparseable total cell and a
missing age cell loads successfully, and the numeric cells come out as
non-negative integers (here both `0`). -/
theorem c1_amended_witness :
    ∃ n : Int, ([Val.str "부산", Val.num 0, Val.num 0] : List Val)[1]? = some (.num n) ∧ 0 ≤ n :=
  (c1_amended ⟨["행정구역", "0", "총인구수"], [[.str "부산 (26)", Val.nan, .str "x"]]⟩
      ⟨["행정구역", "0", "총인구수"], [[.str "부산", .num 0, .num 0]]⟩
      (by decide) (by decide) rfl).1
    1 "0" rfl (by decide) [Val.str "부산", Val.num 0, Val.num 0] (by simp)
